import Mathlib

/-!
Verification of the FloraGuard plant-care assistant's local persistence,
scheduling and memoization core (src/App.tsx, src/GardenCare.tsx,
components/Reminders.tsx, types.ts) against its specification.

The TypeScript data model of types.ts is embedded as Lean structures.
JavaScript's `JSON.stringify`/`JSON.parse` pair is an external platform
primitive; since `stringify` is deterministic and injective on the record
types used here, a serialized localStorage slot is modelled by the
inductive `StoredVal`: `StoredVal.ser v` stands for the exact string
`JSON.stringify v`, and `StoredVal.malformed` stands for a string that
`JSON.parse` rejects with a SyntaxError.  `localStorage` itself is the
`Store` structure: one slot per fixed key used by the code, plus the
`notified_` key family as an association list (with `setItem` overwrite
semantics given by prepending and first-match lookup).
-/

namespace FloraGuard

/-- Cures payload of an `analysis` history item (types.ts, `cures`). -/
structure Cures where
  organic : List String
  chemical : List String
deriving DecidableEq

/-- Purchase link record (types.ts, `PurchaseLink`). -/
structure PurchaseLink where
  pesticideName : String
  url : String
deriving DecidableEq

/-- Soil analysis payload (types.ts, `soilData`). -/
structure SoilData where
  phValue : String
  nitrogen : String
  phosphorus : String
  potassium : String
  organicMatter : String
  suitableCrops : List String
  improvementTips : List String
deriving DecidableEq

/-- Seed analysis payload (types.ts, `seedData`). -/
structure SeedData where
  seedName : String
  plantName : String
  description : String
  cultivationPlaces : List String
  bestSoil : String
  growthTips : List String
deriving DecidableEq

/-- Discriminant of the history union (types.ts, `HistoryItemType`). -/
inductive HistoryItemType where
  | analysis
  | guide
  | soilAnalysis
  | seedAnalysis
deriving DecidableEq

/-- History record (types.ts, `HistoryItem`): common fields plus the
optional per-variant payload fields, exactly as in the source interface. -/
structure HistoryItem where
  id : String
  timestamp : Int
  type : HistoryItemType
  plantName : String
  diseaseName : Option String := none
  severity : Option String := none
  symptoms : Option (List String) := none
  cures : Option Cures := none
  prevention : Option (List String) := none
  purchaseLinks : Option (List PurchaseLink) := none
  imageUrl : Option String := none
  guideContent : Option String := none
  soilData : Option SoilData := none
  seedData : Option SeedData := none
deriving DecidableEq

/-- Model of a JavaScript `Date` value as observed by this code base.  The
code only ever uses `getFullYear`, `getMonth` (0-based), `getDate`,
`getTime` and `toDateString`; the four projections are the fields, and
`toDateString` is derived below.  A reminder's `date` field is an ISO
string in the source, but every use site immediately parses it with
`new Date(...)`, so it is embedded as the parsed date. -/
structure JSDate where
  year : Int
  month : Nat
  day : Nat
  time : Int
deriving DecidableEq

/-- Model of `Date.prototype.toDateString`: a string key that is equal for
two dates exactly when they denote the same calendar day (the only
property the code relies on). -/
def JSDate.toDateString (d : JSDate) : String :=
  toString d.year ++ "-" ++ toString d.month ++ "-" ++ toString d.day

/-- Reminder category (types.ts, `Reminder.type`). -/
inductive ReminderType where
  | fertilizer
  | pesticide
  | watering
  | other
deriving DecidableEq

/-- Scheduled care task (types.ts, `Reminder`). -/
structure Reminder where
  id : String
  title : String
  date : JSDate
  type : ReminderType
  plantName : Option String := none
  completed : Bool
deriving DecidableEq

/-- Signed-in identity (types.ts, `User`). -/
structure User where
  name : String
  email : String
  photoUrl : String
  isLoggedIn : Bool
deriving DecidableEq

/-- Translation language key (GardenCare.tsx, `'hi' | 'ml'`). -/
inductive Lang where
  | hi
  | ml
deriving DecidableEq

/-- Translation cache of a message (types.ts, `Message.translations`). -/
structure Translations where
  hi : Option String := none
  ml : Option String := none
deriving DecidableEq

/-- Chat role (types.ts, `Message.role`). -/
inductive Role where
  | user
  | model
deriving DecidableEq

/-- Chat-style message (types.ts, `Message`). -/
structure Message where
  role : Role
  text : String
  image : Option String := none
  isAnalysis : Option Bool := none
  analysis : Option HistoryItem := none
  translations : Option Translations := none
deriving DecidableEq

/-- A serialized localStorage slot: `ser v` is the string
`JSON.stringify v` (deterministic and injective on these record types, so
string equality of slots coincides with equality of `StoredVal` values),
and `malformed` is a stored string that is not valid JSON. -/
inductive StoredVal (α : Type) where
  | ser (val : α)
  | malformed
deriving DecidableEq

/-- The error thrown by `JSON.parse` on invalid input. -/
inductive ParseErr where
  | syntaxError
deriving DecidableEq

/-- Model of `JSON.parse` applied to a stored slot: recovers the value
that was stringified, and throws on a malformed string. -/
def jsonParse {α : Type} : StoredVal α → Except ParseErr α
  | .ser v => .ok v
  | .malformed => .error .syntaxError

/-- The localStorage state as used by App.tsx: the three fixed keys
`flora_guard_history`, `flora_guard_user`, `flora_guard_reminders`
(`none` = key absent), and the per-reminder dispatch-marker key family
`notified_${id}` holding plain day strings.  The marker family is an
association list keyed by the reminder id (the constant `notified_` key
prefix is injective, so dropping it loses nothing); `setItem` overwrites,
modelled by prepending with first-match lookup. -/
structure Store where
  history : Option (StoredVal (List HistoryItem)) := none
  user : Option (StoredVal User) := none
  reminders : Option (StoredVal (List Reminder)) := none
  notified : List (String × String) := []
deriving DecidableEq

/-- Reading `localStorage.getItem('notified_' + id)`. -/
def getNotified (s : Store) (id : String) : Option String :=
  (s.notified.find? (fun p => p.1 = id)).map (fun p => p.2)

/-- Writing `localStorage.setItem('notified_' + id, v)`. -/
def setNotified (s : Store) (id v : String) : Store :=
  { s with notified := (id, v) :: s.notified }

/-- The App component's persistent state: the `history`, `reminders` and
`user` useState cells (with their initial values as defaults) together
with the backing store. -/
structure AppState where
  history : List HistoryItem := []
  reminders : List Reminder := []
  user : User := { name := "", email := "", photoUrl := "", isLoggedIn := false }
  store : Store := {}
deriving DecidableEq

/-- Embeds the initial-load pattern of App.tsx lines 31-39 for one
collection slot: `const saved = localStorage.getItem(key); if (saved)
setX(JSON.parse(saved))`.  An absent key leaves the state cell at its
initial `[]`; a present slot is parsed by `JSON.parse`, whose exception
propagates out of the effect (there is no try/catch around it). -/
def loadCollection {α : Type} : Option (StoredVal (List α)) → Except ParseErr (List α)
  | none => .ok []
  | some sv => jsonParse sv

/-- Loading the `flora_guard_history` slot (App.tsx lines 32-33). -/
def loadHistory (s : Store) : Except ParseErr (List HistoryItem) :=
  loadCollection s.history

/-- Loading the `flora_guard_reminders` slot (App.tsx lines 38-39). -/
def loadReminders (s : Store) : Except ParseErr (List Reminder) :=
  loadCollection s.reminders

/-- App.tsx `saveToHistory`: prepend the item to the in-memory history and
persist the full updated sequence under `flora_guard_history`. -/
def saveToHistory (item : HistoryItem) (st : AppState) : AppState :=
  let updatedHistory := item :: st.history
  { st with
    history := updatedHistory,
    store := { st.store with history := some (.ser updatedHistory) } }

/-- App.tsx `saveReminders`: replace the in-memory reminder sequence and
persist it whole under `flora_guard_reminders`. -/
def saveReminders (updated : List Reminder) (st : AppState) : AppState :=
  { st with
    reminders := updated,
    store := { st.store with reminders := some (.ser updated) } }

/-- App.tsx `handleAddReminder`: append at the end and persist. -/
def handleAddReminder (r : Reminder) (st : AppState) : AppState :=
  saveReminders (st.reminders ++ [r]) st

/-- App.tsx `handleToggleReminder`: flip `completed` on every reminder
whose id matches (ids are unique in practice) and persist. -/
def handleToggleReminder (id : String) (st : AppState) : AppState :=
  saveReminders
    (st.reminders.map (fun r => if r.id = id then { r with completed := !r.completed } else r))
    st

/-- App.tsx `handleDeleteReminder`: drop the matching reminder and persist. -/
def handleDeleteReminder (id : String) (st : AppState) : AppState :=
  saveReminders (st.reminders.filter (fun r => ¬(r.id = id))) st

/-- Observable side effects of one scheduler tick, in program order:
`dispatch id title` is the `new Notification(title, ...)` call made while
processing the reminder with the given id, and `writeMarker id day` is the
`localStorage.setItem('notified_' + id, day)` that follows it. -/
inductive Event where
  | dispatch (id title : String)
  | writeMarker (id day : String)
deriving DecidableEq

/-- Body of the `reminders.forEach` loop of `checkReminders` (App.tsx
lines 53-68), acting on the accumulated store and event trace: if the
reminder's date is today and it is not completed, and notification
capability is granted, and the stored marker is not today's string, then
dispatch the notification and afterwards write today's marker. -/
def checkStep (todayStr : String) (granted : Bool) (acc : Store × List Event)
    (r : Reminder) : Store × List Event :=
  let (store, evs) := acc
  if r.date.toDateString = todayStr ∧ ¬r.completed then
    if granted then
      let lastNotified := getNotified store r.id
      if lastNotified ≠ some todayStr then
        (setNotified store r.id todayStr,
          evs ++ [.dispatch r.id ("FloraGuard: " ++ r.title), .writeMarker r.id todayStr])
      else (store, evs)
    else (store, evs)
  else (store, evs)

/-- App.tsx `checkReminders` (one scheduler tick): iterate the registry in
order, producing the updated store and the trace of side effects.
`todayStr` is the value of `new Date().toDateString()` at the tick, and
`granted` is whether `Notification.permission === "granted"`. -/
def checkReminders (reminders : List Reminder) (todayStr : String) (granted : Bool)
    (store : Store) : Store × List Event :=
  reminders.foldl (checkStep todayStr granted) (store, [])

/-- Number of notification dispatches for a given reminder id in a trace. -/
def countDispatch (evs : List Event) (id : String) : Nat :=
  evs.countP (fun e => match e with
    | .dispatch i _ => i = id
    | .writeMarker _ _ => false)

/-- Reminders.tsx `filteredReminders` (the month projection): filter the
registry to the reminders whose date has the selected month and year, then
sort the fresh filtered copy ascending by `getTime()` (the JS numeric
comparator `(a, b) => a.getTime() - b.getTime()`).  `filter` returns a new
array and `sort` mutates only that copy, so the registry itself is
untouched; the embedding is accordingly a pure function of the registry. -/
def filteredReminders (reminders : List Reminder) (selYear : Int) (selMonth : Nat) :
    List Reminder :=
  (reminders.filter (fun r => r.date.month = selMonth ∧ r.date.year = selYear)).mergeSort
    (fun a b => a.date.time ≤ b.date.time)

/-- JavaScript truthiness of an optional string, as tested by
`if (msg.translations?.[lang])` and `if (translated)`: present and
non-empty. -/
def truthy : Option String → Bool
  | none => false
  | some s => ¬(s = "")

/-- Reading `msg.translations?.[lang]`. -/
def getTr (t : Option Translations) : Lang → Option String
  | .hi => (t.map Translations.hi).join
  | .ml => (t.map Translations.ml).join

/-- The spread update `{ ...msg.translations, [lang]: translated }`
(spreading an absent `translations` yields the empty object). -/
def setTr (t : Option Translations) (lang : Lang) (v : String) : Translations :=
  let base := t.getD {}
  match lang with
  | .hi => { base with hi := some v }
  | .ml => { base with ml := some v }

/-- GardenCare.tsx `handleTranslate`: if the translation for `lang` is
already cached on the message, return at once without calling the
external collaborator; otherwise call `translateText` — `result` is that
call's outcome (`Except.error` models a thrown error, caught by the
handler) — and on a truthy result write it into the message's translation
map, replacing the message at `index` in a fresh copy of the list.  The
returned Bool records whether the external collaborator was called.  The
handler is only invoked with indices of rendered messages; an
out-of-range index is modelled as a no-op. -/
def handleTranslate (chatMessages : List Message) (index : Nat) (lang : Lang)
    (result : Except Unit String) : List Message × Bool :=
  match chatMessages[index]? with
  | none => (chatMessages, false)
  | some msg =>
    if truthy (getTr msg.translations lang) then (chatMessages, false)
    else
      match result with
      | .error _ => (chatMessages, true)
      | .ok translated =>
        if truthy (some translated) then
          (chatMessages.set index
            { msg with translations := some (setTr msg.translations lang translated) },
            true)
        else (chatMessages, true)

/-- A tick trace is marker-ordered when every marker write names today's
day string and is strictly preceded by a notification dispatch for the
same reminder id. -/
def MarkerOrdered (today : String) (evs : List Event) : Prop :=
  ∀ (i : Nat) (id day : String), evs[i]? = some (Event.writeMarker id day) →
    day = today ∧ ∃ j : Nat, j < i ∧ ∃ t, evs[j]? = some (Event.dispatch id t)

/-- Concrete calendar day used as a test fixture. -/
def dayW : JSDate := { year := 2026, month := 9, day := 11, time := 100 }

/-- Concrete reminder fixture, due on `dayW` and not completed. -/
def remW : Reminder :=
  { id := "a", title := "Fertilize Tomatoes", date := dayW, type := .fertilizer,
    completed := false }

/-- Concrete app-state fixture whose persisted reminder slot is in sync
with the in-memory registry. -/
def stW : AppState :=
  { reminders := [remW], store := { reminders := some (.ser [remW]) } }

/-- Concrete model-message fixture with no cached translations. -/
def msgW : Message := { role := .model, text := "Care guide text" }

/-- C1 (counterexample): at the concrete store whose history slot holds a
malformed string, the initial load propagates the JSON.parse SyntaxError
instead of degrading to the empty sequence — the load effect has no
try/catch, so the claim that a malformed stored value never causes the
load to crash or propagate an error is false. -/
theorem load_malformed_counterexample :
    loadHistory { history := some .malformed } = .error .syntaxError ∧
    ¬loadHistory { history := some .malformed } = .ok [] := by
  constructor
  · rfl
  · intro h
    exact Except.noConfusion h

/-- C1 (amended): loading a persisted collection returns the stored
sequence when the slot holds a well-formed serialization and the empty
sequence when the key is absent; a malformed stored value makes the load
propagate a parse error (the code does not catch JSON.parse exceptions). -/
theorem load_collection_amended :
    (∀ s : Store, s.history = none → loadHistory s = .ok []) ∧
    (∀ (s : Store) (l : List HistoryItem), s.history = some (.ser l) → loadHistory s = .ok l) ∧
    (∀ s : Store, s.history = some .malformed → loadHistory s = .error .syntaxError) ∧
    (∀ s : Store, s.reminders = none → loadReminders s = .ok []) ∧
    (∀ (s : Store) (l : List Reminder), s.reminders = some (.ser l) → loadReminders s = .ok l) ∧
    (∀ s : Store, s.reminders = some .malformed → loadReminders s = .error .syntaxError) := by
  refine ⟨fun s h => ?_, fun s l h => ?_, fun s h => ?_, fun s h => ?_, fun s l h => ?_,
    fun s h => ?_⟩ <;> simp [loadHistory, loadReminders, loadCollection, jsonParse, h]

/-- C1 amended, instantiated at concrete stores: the absent, well-formed
and malformed cases of both collection slots. -/
theorem load_collection_amended_witness :
    loadHistory {} = .ok [] ∧
    loadHistory { history := some (.ser []) } = .ok [] ∧
    loadHistory { history := some .malformed } = .error .syntaxError ∧
    loadReminders {} = .ok [] ∧
    loadReminders { reminders := some (.ser [remW]) } = .ok [remW] ∧
    loadReminders { reminders := some .malformed } = .error .syntaxError :=
  ⟨load_collection_amended.1 {} rfl,
    load_collection_amended.2.1 { history := some (.ser []) } [] rfl,
    load_collection_amended.2.2.1 { history := some .malformed } rfl,
    load_collection_amended.2.2.2.1 {} rfl,
    load_collection_amended.2.2.2.2.1 { reminders := some (.ser [remW]) } [remW] rfl,
    load_collection_amended.2.2.2.2.2 { reminders := some .malformed } rfl⟩

/-- C7: save followed by load is an identity — saving the reminder
sequence (or the updated history sequence) under its key and loading that
key returns exactly the saved sequence, for every sequence including the
empty one; and in general a well-formed serialized slot parses back to
the serialized value. -/
theorem save_load_roundtrip :
    (∀ (updated : List Reminder) (st : AppState),
      loadReminders (saveReminders updated st).store = .ok updated) ∧
    (∀ (item : HistoryItem) (st : AppState),
      loadHistory (saveToHistory item st).store = .ok (item :: st.history)) ∧
    (∀ {α : Type} (l : List α), loadCollection (some (.ser l)) = .ok l) := by
  exact ⟨fun _ _ => rfl, fun _ _ => rfl, fun _ => rfl⟩

/-- A sequence of appends accumulates on the front: the in-memory history
after folding `saveToHistory` over a list of items is that list reversed,
prepended to the starting history. -/
theorem saveToHistory_foldl_history (items : List HistoryItem) :
    ∀ st : AppState,
      (items.foldl (fun s it => saveToHistory it s) st).history =
        items.reverse ++ st.history := by
  induction items with
  | nil => intro st; simp
  | cons it its ih =>
    intro st
    simp only [List.foldl_cons, ih, List.reverse_cons, List.append_assoc]
    rfl

/-- Folding appends preserves the write-through invariant that the
persisted history slot is the serialization of the in-memory history. -/
theorem saveToHistory_foldl_store (items : List HistoryItem) :
    ∀ st : AppState, st.store.history = some (.ser st.history) →
      (items.foldl (fun s it => saveToHistory it s) st).store.history =
        some (.ser (items.foldl (fun s it => saveToHistory it s) st).history) := by
  induction items with
  | nil => intro st h; exact h
  | cons it its ih =>
    intro st _
    simp only [List.foldl_cons]
    exact ih (saveToHistory it st) rfl

/-- C4: each append to the history ledger places the new item at the
front, leaves all previously stored items unchanged and in their relative
order, and persists the full updated sequence; consequently any sequence
of appends from any starting history yields the appended items
newest-first in front of the original items, with the persisted slot in
sync after every (nonempty) sequence of appends. -/
theorem history_append_newest_first :
    (∀ (item : HistoryItem) (st : AppState),
      (saveToHistory item st).history = item :: st.history ∧
      (saveToHistory item st).store.history = some (.ser (item :: st.history))) ∧
    (∀ (items : List HistoryItem) (st : AppState),
      (items.foldl (fun s it => saveToHistory it s) st).history =
        items.reverse ++ st.history) ∧
    (∀ (item : HistoryItem) (items : List HistoryItem) (st : AppState),
      ((item :: items).foldl (fun s it => saveToHistory it s) st).store.history =
        some (.ser (((item :: items).foldl (fun s it => saveToHistory it s) st).history))) := by
  refine ⟨fun item st => ⟨rfl, rfl⟩, fun items st => saveToHistory_foldl_history items st,
    fun item items st => ?_⟩
  simp only [List.foldl_cons]
  exact saveToHistory_foldl_store items (saveToHistory item st) rfl

/-- Flipping the completed flag of a matching reminder twice restores the
reminder exactly. -/
theorem toggle_toggle_reminder (id : String) (r : Reminder) :
    (fun r => if r.id = id then { r with completed := !r.completed } else r)
      ((fun r => if r.id = id then { r with completed := !r.completed } else r) r) = r := by
  obtain ⟨rid, rtitle, rdate, rtype, rplant, rcomp⟩ := r
  by_cases h : rid = id
  · subst h; simp
  · simp [h]

/-- C6: with the persisted slot in sync with the in-memory registry (the
write-through invariant every mutation maintains), toggling a reminder id
twice restores the whole app state — in particular every reminder's
completed flag and the registry's serialized persisted form are exactly
as before — and a single toggle of an id matching no reminder leaves the
state unchanged. -/
theorem toggle_completion_involutive (st : AppState) (id : String)
    (h : st.store.reminders = some (.ser st.reminders)) :
    handleToggleReminder id (handleToggleReminder id st) = st ∧
    ((∀ r ∈ st.reminders, ¬r.id = id) → handleToggleReminder id st = st) := by
  obtain ⟨hist, rems, usr, sh, su, sr, sn⟩ := st
  simp only [AppState.store, Store.reminders, AppState.reminders] at h
  subst h
  constructor
  · have hmap2 :
        (rems.map (fun r => if r.id = id then { r with completed := !r.completed } else r)).map
          (fun r => if r.id = id then { r with completed := !r.completed } else r) = rems := by
      rw [List.map_map]
      exact (List.map_congr_left fun r _ => toggle_toggle_reminder id r).trans (List.map_id rems)
    simp [handleToggleReminder, saveReminders, hmap2]
  · intro habs
    simp only [AppState.reminders] at habs
    have hmap :
        rems.map (fun r => if r.id = id then { r with completed := !r.completed } else r)
          = rems := by
      refine (List.map_congr_left fun r hr => ?_).trans (List.map_id rems)
      simp [habs r hr]
    simp [handleToggleReminder, saveReminders, hmap]

/-- C6 instantiated: double toggle of the present id "a" restores the
concrete fixture state, and a single toggle of the absent id "b" leaves
it unchanged. -/
theorem toggle_completion_involutive_witness :
    handleToggleReminder "a" (handleToggleReminder "a" stW) = stW ∧
    handleToggleReminder "b" stW = stW :=
  ⟨(toggle_completion_involutive stW "a" rfl).1,
    (toggle_completion_involutive stW "b" rfl).2 (by decide)⟩

/-- C8: the month projection is exactly the sub-multiset of reminders
whose date has the selected calendar month and year — it is a permutation
of the registry filtered on month and year, a reminder is in the result
iff it is in the registry with matching month and year — and it is sorted
ascending by date (the getTime value).  The projection is a pure function
of the registry (the source sorts a fresh filtered copy), so it cannot
mutate the stored registry. -/
theorem forMonth_projection (rs : List Reminder) (y : Int) (m : Nat) :
    (filteredReminders rs y m).Perm
      (rs.filter (fun r => r.date.month = m ∧ r.date.year = y)) ∧
    (∀ r : Reminder,
      r ∈ filteredReminders rs y m ↔ r ∈ rs ∧ r.date.month = m ∧ r.date.year = y) ∧
    (filteredReminders rs y m).Pairwise (fun a b => a.date.time ≤ b.date.time) := by
  have hperm := List.mergeSort_perm
    (rs.filter (fun r => r.date.month = m ∧ r.date.year = y))
    (fun a b => a.date.time ≤ b.date.time)
  refine ⟨hperm, fun r => ?_, ?_⟩
  · simp only [filteredReminders]
    rw [List.Perm.mem_iff hperm]
    simp [List.mem_filter]
  · have hsorted := @List.sorted_mergeSort Reminder
      (fun a b : Reminder => decide (a.date.time ≤ b.date.time))
      (fun a b c hab hbc => by
        simp only [decide_eq_true_eq] at hab hbc ⊢
        exact le_trans hab hbc)
      (fun a b => by
        simp only [Bool.or_eq_true, decide_eq_true_eq]
        exact le_total a.date.time b.date.time)
      (rs.filter (fun r => r.date.month = m ∧ r.date.year = y))
    exact hsorted.imp (fun h => by simpa using h)

/-- Reading back the language key just written yields the written value. -/
theorem getTr_setTr_same (t : Option Translations) (lang : Lang) (v : String) :
    getTr (some (setTr t lang v)) lang = some v := by
  cases lang <;> cases t <;> rfl

/-- Writing one language key leaves the other language key unchanged. -/
theorem getTr_setTr_other (t : Option Translations) (lang lang' : Lang) (v : String)
    (h : ¬lang' = lang) : getTr (some (setTr t lang v)) lang' = getTr t lang' := by
  cases lang <;> cases lang' <;> cases t <;> first
    | rfl
    | exact absurd rfl h

/-- C9: once a translation request for a (message, language) pair has
completed successfully, a second request for the same pair is a pure
cache hit — whatever the collaborator would answer, the handler returns
with the message list unchanged and without calling the external
translation collaborator. -/
theorem translate_cache_hit_no_call (msgs : List Message) (i : Nat) (lang : Lang)
    (t : String) (hlen : i < msgs.length) (ht : ¬t = "") (result : Except Unit String) :
    handleTranslate (handleTranslate msgs i lang (.ok t)).1 i lang result
      = ((handleTranslate msgs i lang (.ok t)).1, false) := by
  have h0 : msgs[i]? = some msgs[i] := List.getElem?_eq_getElem hlen
  have htr : truthy (some t) = true := by simp [truthy, ht]
  by_cases hc : truthy (getTr msgs[i].translations lang)
  · have h1 : handleTranslate msgs i lang (.ok t) = (msgs, false) := by
      simp [handleTranslate, h0, hc]
    rw [h1]
    simp [handleTranslate, h0, hc]
  · have hc2 : truthy (getTr msgs[i].translations lang) = false := by
      simpa using hc
    have h1 : handleTranslate msgs i lang (.ok t)
        = (msgs.set i { msgs[i] with
            translations := some (setTr msgs[i].translations lang t) }, true) := by
      simp [handleTranslate, h0, hc2, htr]
    rw [h1]
    simp [handleTranslate, List.getElem?_set_self hlen, getTr_setTr_same, htr]

/-- C9 instantiated: after a successful first translation of the fixture
message, a second request (here with a failing collaborator) returns the
cached state and issues no external call. -/
theorem translate_cache_hit_no_call_witness :
    handleTranslate (handleTranslate [msgW] 0 .hi (.ok "anuvad")).1 0 .hi (.error ())
      = ((handleTranslate [msgW] 0 .hi (.ok "anuvad")).1, false) :=
  translate_cache_hit_no_call [msgW] 0 .hi "anuvad" (by decide) (by decide) (.error ())

/-- C10: a successful translation of the message at index i into language
lang changes only that message's translations entry for lang: every other
index is unchanged, and the message's role, text, image, analysis fields
and its translation for the other language are unchanged, while the lang
entry becomes the translated text. -/
theorem translate_frame (msgs : List Message) (i : Nat) (lang : Lang) (t : String)
    (hlen : i < msgs.length)
    (hmiss : truthy (getTr (msgs.get ⟨i, hlen⟩).translations lang) = false)
    (ht : ¬t = "") :
    (∀ j : Nat, ¬j = i → ((handleTranslate msgs i lang (.ok t)).1)[j]? = msgs[j]?) ∧
    ∃ m1 : Message,
      ((handleTranslate msgs i lang (.ok t)).1)[i]? = some m1 ∧
      m1.role = (msgs.get ⟨i, hlen⟩).role ∧
      m1.text = (msgs.get ⟨i, hlen⟩).text ∧
      m1.image = (msgs.get ⟨i, hlen⟩).image ∧
      m1.isAnalysis = (msgs.get ⟨i, hlen⟩).isAnalysis ∧
      m1.analysis = (msgs.get ⟨i, hlen⟩).analysis ∧
      getTr m1.translations lang = some t ∧
      (∀ lang' : Lang, ¬lang' = lang →
        getTr m1.translations lang' = getTr (msgs.get ⟨i, hlen⟩).translations lang') := by
  have h0 : msgs[i]? = some msgs[i] := List.getElem?_eq_getElem hlen
  have hget : msgs.get ⟨i, hlen⟩ = msgs[i] := rfl
  rw [hget] at hmiss
  have htr : truthy (some t) = true := by simp [truthy, ht]
  have h1 : handleTranslate msgs i lang (.ok t)
      = (msgs.set i { msgs[i] with
          translations := some (setTr msgs[i].translations lang t) }, true) := by
    simp [handleTranslate, h0, hmiss, htr]
  rw [hget]
  constructor
  · intro j hj
    rw [h1]
    exact List.getElem?_set_ne (fun hij => hj hij.symm)
  · refine ⟨{ msgs[i] with translations := some (setTr msgs[i].translations lang t) },
      ?_, rfl, rfl, rfl, rfl, rfl, getTr_setTr_same _ lang t, ?_⟩
    · rw [h1]
      exact List.getElem?_set_self hlen
    · intro lang' hl
      exact getTr_setTr_other _ lang lang' t hl

/-- C10 instantiated: translating the fixture message at index 0 to Hindi
leaves the other index unchanged and only adds the hi translation. -/
theorem translate_frame_witness :
    (∀ j : Nat, ¬j = 0 → ((handleTranslate [msgW, msgW] 0 .hi (.ok "anuvad")).1)[j]?
      = ([msgW, msgW] : List Message)[j]?) ∧
    ∃ m1 : Message,
      ((handleTranslate [msgW, msgW] 0 .hi (.ok "anuvad")).1)[0]? = some m1 ∧
      m1.role = (([msgW, msgW] : List Message).get ⟨0, by decide⟩).role ∧
      m1.text = (([msgW, msgW] : List Message).get ⟨0, by decide⟩).text ∧
      m1.image = (([msgW, msgW] : List Message).get ⟨0, by decide⟩).image ∧
      m1.isAnalysis = (([msgW, msgW] : List Message).get ⟨0, by decide⟩).isAnalysis ∧
      m1.analysis = (([msgW, msgW] : List Message).get ⟨0, by decide⟩).analysis ∧
      getTr m1.translations .hi = some "anuvad" ∧
      (∀ lang' : Lang, ¬lang' = .hi →
        getTr m1.translations lang'
          = getTr (([msgW, msgW] : List Message).get ⟨0, by decide⟩).translations lang') :=
  translate_frame [msgW, msgW] 0 .hi "anuvad" (by decide) (by decide) (by decide)

/-- Looking up the marker key just written yields the written day. -/
theorem getNotified_setNotified_self (s : Store) (id v : String) :
    getNotified (setNotified s id v) id = some v := by
  simp [getNotified, setNotified, List.find?_cons_of_pos]

/-- Writing one reminder's marker key leaves every other reminder's
marker unchanged. -/
theorem getNotified_setNotified_ne (s : Store) (id id2 v : String) (h : ¬id = id2) :
    getNotified (setNotified s id v) id2 = getNotified s id2 := by
  simp only [getNotified, setNotified]
  rw [List.find?_cons_of_neg]
  simp [h]

/-- One loop iteration of the scheduler either leaves the accumulator
unchanged, or — precisely when capability is granted, the reminder is due
today, not completed, and its marker is not today's — writes today's
marker and appends the dispatch-then-marker-write block to the trace. -/
theorem checkStep_cases (today : String) (granted : Bool) (s : Store) (evs : List Event)
    (r : Reminder) :
    checkStep today granted (s, evs) r = (s, evs) ∨
    (checkStep today granted (s, evs) r =
        (setNotified s r.id today,
          evs ++ [.dispatch r.id ("FloraGuard: " ++ r.title), .writeMarker r.id today]) ∧
      granted = true ∧ r.date.toDateString = today ∧ r.completed = false ∧
      ¬getNotified s r.id = some today) := by
  by_cases h1 : r.date.toDateString = today ∧ ¬r.completed
  · by_cases h2 : granted = true
    · by_cases h3 : getNotified s r.id = some today
      · left
        simp [checkStep, h1, h2, h3]
      · right
        refine ⟨?_, h2, h1.1, by simpa using h1.2, h3⟩
        simp [checkStep, h1, h2, h3]
    · left
      simp [checkStep, h1, h2]
  · left
    simp only [checkStep]
    rw [if_neg h1]

/-- Shape of one loop iteration: some new store and some appended trace
tail. -/
theorem checkStep_trace (today : String) (granted : Bool) (s : Store) (evs : List Event)
    (r : Reminder) :
    ∃ (s2 : Store) (tail : List Event),
      checkStep today granted (s, evs) r = (s2, evs ++ tail) := by
  rcases checkStep_cases today granted s evs r with h | ⟨h, _⟩
  · exact ⟨s, [], by simpa using h⟩
  · exact ⟨_, _, h⟩

/-- The tick only appends to the event trace. -/
theorem foldl_checkStep_trace (today : String) (granted : Bool) (rs : List Reminder) :
    ∀ (s : Store) (evs : List Event),
      ∃ tail, (rs.foldl (checkStep today granted) (s, evs)).2 = evs ++ tail := by
  induction rs with
  | nil => intro s evs; exact ⟨[], by simp⟩
  | cons r rest ih =>
    intro s evs
    obtain ⟨s2, tail, hstep⟩ := checkStep_trace today granted s evs r
    obtain ⟨tail2, hrest⟩ := ih s2 (evs ++ tail)
    exact ⟨tail ++ tail2, by
      rw [List.foldl_cons, hstep, hrest, List.append_assoc]⟩

/-- Events already in the trace stay in the trace across a tick. -/
theorem foldl_checkStep_mem (today : String) (granted : Bool) (rs : List Reminder)
    (s : Store) (evs : List Event) (e : Event) (he : e ∈ evs) :
    e ∈ (rs.foldl (checkStep today granted) (s, evs)).2 := by
  obtain ⟨tail, htr⟩ := foldl_checkStep_trace today granted rs s evs
  rw [htr]
  exact List.mem_append_left _ he

/-- A marker already holding today's day string still holds it after one
loop iteration. -/
theorem checkStep_preserves_marker (today : String) (granted : Bool) (s : Store)
    (evs : List Event) (r : Reminder) (id : String)
    (h : getNotified s id = some today) :
    getNotified (checkStep today granted (s, evs) r).1 id = some today := by
  rcases checkStep_cases today granted s evs r with hs | ⟨hs, _, _, _, _⟩
  · rw [hs]; exact h
  · rw [hs]
    by_cases hid : r.id = id
    · rw [hid]
      exact getNotified_setNotified_self s id today
    · rw [getNotified_setNotified_ne s r.id id today hid]
      exact h

/-- A marker already holding today's day string still holds it after a
whole tick. -/
theorem foldl_preserves_marker (today : String) (granted : Bool) (rs : List Reminder) :
    ∀ (s : Store) (evs : List Event) (id : String), getNotified s id = some today →
      getNotified (rs.foldl (checkStep today granted) (s, evs)).1 id = some today := by
  induction rs with
  | nil => intro s evs id h; exact h
  | cons r rest ih =>
    intro s evs id h
    rw [List.foldl_cons]
    have hstep := checkStep_preserves_marker today granted s evs r id h
    obtain ⟨s2, tail, heq⟩ := checkStep_trace today granted s evs r
    rw [heq] at hstep ⊢
    exact ih s2 (evs ++ tail) id hstep

/-- Dispatch counts add across appended traces. -/
theorem countDispatch_append (a b : List Event) (id : String) :
    countDispatch (a ++ b) id = countDispatch a id + countDispatch b id :=
  List.countP_append _ a b

/-- Dispatch count of the two-event block emitted for one reminder. -/
theorem countDispatch_block (rid title day id : String) :
    countDispatch [Event.dispatch rid title, Event.writeMarker rid day] id
      = if rid = id then 1 else 0 := by
  by_cases h : rid = id
  · simp [countDispatch, List.countP, List.countP.go, h]
  · simp [countDispatch, List.countP, List.countP.go, h]

/-- While a reminder's marker already holds today's day string, a loop
iteration adds no dispatch for that reminder id. -/
theorem checkStep_count_frozen (today : String) (granted : Bool) (s : Store)
    (evs : List Event) (r : Reminder) (id : String)
    (h : getNotified s id = some today) :
    countDispatch (checkStep today granted (s, evs) r).2 id = countDispatch evs id := by
  rcases checkStep_cases today granted s evs r with hs | ⟨hs, _, _, _, hnm⟩
  · rw [hs]
  · rw [hs]
    have hid : ¬r.id = id := fun hid => hnm (by rw [hid]; exact h)
    simp [countDispatch_append, countDispatch_block, hid]

/-- A tick starting with today's marker already set for an id adds no
dispatches for that id. -/
theorem foldl_count_frozen (today : String) (granted : Bool) (rs : List Reminder) :
    ∀ (s : Store) (evs : List Event) (id : String), getNotified s id = some today →
      countDispatch (rs.foldl (checkStep today granted) (s, evs)).2 id
        = countDispatch evs id := by
  induction rs with
  | nil => intro s evs id _; rfl
  | cons r rest ih =>
    intro s evs id h
    rw [List.foldl_cons]
    have hcount := checkStep_count_frozen today granted s evs r id h
    have hmarker := checkStep_preserves_marker today granted s evs r id h
    obtain ⟨s2, tail, heq⟩ := checkStep_trace today granted s evs r
    rw [heq] at hcount hmarker ⊢
    rw [ih s2 (evs ++ tail) id hmarker, hcount]

/-- Single-tick dispatch-count invariant: if the trace so far has no
dispatch for an id unless its marker is already today's (and at most one
in any case), the same bound holds after folding the remaining reminders. -/
theorem foldl_count_le_one (today : String) (granted : Bool) (rs : List Reminder) :
    ∀ (s : Store) (evs : List Event) (id : String),
      (¬getNotified s id = some today → countDispatch evs id = 0) →
      countDispatch evs id ≤ 1 →
      countDispatch (rs.foldl (checkStep today granted) (s, evs)).2 id ≤ 1 := by
  induction rs with
  | nil => intro s evs id _ h2; exact h2
  | cons r rest ih =>
    intro s evs id h1 h2
    rw [List.foldl_cons]
    rcases checkStep_cases today granted s evs r with hs | ⟨hs, _, _, _, hnm⟩
    · rw [hs]
      exact ih s evs id h1 h2
    · rw [hs]
      by_cases hid : r.id = id
      · have hzero : countDispatch evs id = 0 := h1 (by rw [← hid]; exact hnm)
        have hone : countDispatch
            (evs ++ [Event.dispatch r.id ("FloraGuard: " ++ r.title),
              Event.writeMarker r.id today]) id = 1 := by
          rw [countDispatch_append, countDispatch_block, hzero, if_pos hid]
        refine ih _ _ id (fun hne => ?_) (le_of_eq hone)
        · exact absurd (by rw [hid] at hnm ⊢; exact getNotified_setNotified_self s id today) hne
      · have hsame : countDispatch
            (evs ++ [Event.dispatch r.id ("FloraGuard: " ++ r.title),
              Event.writeMarker r.id today]) id = countDispatch evs id := by
          rw [countDispatch_append, countDispatch_block, if_neg hid]
          omega
        refine ih _ _ id (fun hne => ?_) (by rw [hsame]; exact h2)
        · rw [getNotified_setNotified_ne s r.id id today hid] at hne
          rw [hsame]
          exact h1 hne

/-- One loop iteration on a due, uncompleted reminder with capability
granted: either its marker was already today's and nothing happens, or it
was not and the dispatch block is emitted with the marker set. -/
theorem checkStep_eligible (today : String) (s : Store) (evs : List Event) (r : Reminder)
    (hdue : r.date.toDateString = today) (hcomp : r.completed = false) :
    (getNotified s r.id = some today ∧ checkStep today true (s, evs) r = (s, evs)) ∨
    (¬getNotified s r.id = some today ∧
      checkStep today true (s, evs) r =
        (setNotified s r.id today,
          evs ++ [.dispatch r.id ("FloraGuard: " ++ r.title), .writeMarker r.id today])) := by
  by_cases h3 : getNotified s r.id = some today
  · left
    exact ⟨h3, by simp [checkStep, hdue, hcomp, h3]⟩
  · right
    exact ⟨h3, by simp [checkStep, hdue, hcomp, h3]⟩

/-- After one loop iteration on a due, uncompleted reminder with
capability granted, its marker holds today's day string. -/
theorem checkStep_eligible_marker (today : String) (s : Store) (evs : List Event)
    (r : Reminder) (hdue : r.date.toDateString = today) (hcomp : r.completed = false) :
    getNotified (checkStep today true (s, evs) r).1 r.id = some today := by
  rcases checkStep_eligible today s evs r hdue hcomp with ⟨h3, hs⟩ | ⟨_, hs⟩
  · rw [hs]; exact h3
  · rw [hs]; exact getNotified_setNotified_self s r.id today

/-- After a tick with capability granted, every reminder in the registry
that is due today and not completed has today's marker recorded. -/
theorem foldl_eligible_marker (today : String) (rs : List Reminder) :
    ∀ (s : Store) (evs : List Event) (r : Reminder), r ∈ rs →
      r.date.toDateString = today → r.completed = false →
      getNotified (rs.foldl (checkStep today true) (s, evs)).1 r.id = some today := by
  induction rs with
  | nil => intro s evs r hr; cases hr
  | cons r0 rest ih =>
    intro s evs r hr hdue hcomp
    rw [List.foldl_cons]
    rcases List.mem_cons.mp hr with heq | hmem
    · subst heq
      have hm : getNotified (checkStep today true (s, evs) r).1 r.id = some today :=
        checkStep_eligible_marker today s evs r hdue hcomp
      obtain ⟨s2, tail, heq2⟩ := checkStep_trace today true s evs r
      rw [heq2] at hm ⊢
      exact foldl_preserves_marker today true rest s2 (evs ++ tail) r.id hm
    · obtain ⟨s2, tail, heq2⟩ := checkStep_trace today true s evs r0
      rw [heq2]
      exact ih s2 (evs ++ tail) r hmem hdue hcomp

/-- C2: for a reminder due today and not completed, with notification
capability granted, two consecutive scheduler ticks in the same calendar
day dispatch at most one notification for that reminder — the first tick
dispatches at most once, and the second tick dispatches nothing because
the first tick left today's marker set. -/
theorem tick_twice_at_most_one_dispatch (rs : List Reminder) (today : String) (s : Store)
    (r : Reminder) (hr : r ∈ rs) (hdue : r.date.toDateString = today)
    (hcomp : r.completed = false) :
    countDispatch (checkReminders rs today true s).2 r.id +
      countDispatch (checkReminders rs today true (checkReminders rs today true s).1).2 r.id
      ≤ 1 ∧
    countDispatch (checkReminders rs today true (checkReminders rs today true s).1).2 r.id
      = 0 := by
  have h1 : countDispatch (checkReminders rs today true s).2 r.id ≤ 1 :=
    foldl_count_le_one today true rs s [] r.id (fun _ => rfl) (by simp [countDispatch])
  have hm : getNotified (checkReminders rs today true s).1 r.id = some today :=
    foldl_eligible_marker today rs s [] r hr hdue hcomp
  have h2 : countDispatch
      (checkReminders rs today true (checkReminders rs today true s).1).2 r.id = 0 :=
    foldl_count_frozen today true rs (checkReminders rs today true s).1 [] r.id hm
  exact ⟨by omega, h2⟩

/-- C2 instantiated: for the concrete fixture reminder due on the
concrete day, two ticks from the empty store dispatch at most once in
total and the second tick dispatches nothing. -/
theorem tick_twice_at_most_one_dispatch_witness :
    countDispatch (checkReminders [remW] dayW.toDateString true {}).2 remW.id +
      countDispatch (checkReminders [remW] dayW.toDateString true
        (checkReminders [remW] dayW.toDateString true {}).1).2 remW.id ≤ 1 ∧
    countDispatch (checkReminders [remW] dayW.toDateString true
      (checkReminders [remW] dayW.toDateString true {}).1).2 remW.id = 0 :=
  tick_twice_at_most_one_dispatch [remW] dayW.toDateString {} remW
    (List.mem_singleton.mpr rfl) rfl rfl

/-- If a reminder in the registry is due today, not completed, capability
is granted, and its marker does not already hold today's day string
before the tick (unless a dispatch for it is already in the trace), then
the tick's trace contains a dispatch for it. -/
theorem foldl_dispatch_exists (today : String) (rs : List Reminder) :
    ∀ (s : Store) (evs : List Event) (r : Reminder), r ∈ rs →
      r.date.toDateString = today → r.completed = false →
      (getNotified s r.id = some today → ∃ t, Event.dispatch r.id t ∈ evs) →
      ∃ t, Event.dispatch r.id t ∈ (rs.foldl (checkStep today true) (s, evs)).2 := by
  induction rs with
  | nil => intro s evs r hr; cases hr
  | cons r0 rest ih =>
    intro s evs r hr hdue hcomp hinv
    rw [List.foldl_cons]
    rcases List.mem_cons.mp hr with heq | hmem
    · subst heq
      rcases checkStep_eligible today s evs r hdue hcomp with ⟨h3, hs⟩ | ⟨_, hs⟩
      · obtain ⟨t, ht⟩ := hinv h3
        rw [hs]
        exact ⟨t, foldl_checkStep_mem today true rest s evs _ ht⟩
      · rw [hs]
        refine ⟨"FloraGuard: " ++ r.title, ?_⟩
        apply foldl_checkStep_mem
        exact List.mem_append_right _ (by simp)
    · rcases checkStep_cases today true s evs r0 with hc | ⟨hc, _, _, _, _⟩
      · rw [hc]
        exact ih s evs r hmem hdue hcomp hinv
      · rw [hc]
        apply ih _ _ r hmem hdue hcomp
        intro hm2
        by_cases hid : r0.id = r.id
        · refine ⟨"FloraGuard: " ++ r0.title, List.mem_append_right _ ?_⟩
          rw [hid]
          simp
        · rw [getNotified_setNotified_ne s r0.id r.id today hid] at hm2
          obtain ⟨t, ht⟩ := hinv hm2
          exact ⟨t, List.mem_append_left _ ht⟩

/-- C5: a dispatch marker recorded on a previous day does not suppress
dispatch today — a tick on a later day (different day string), with the
reminder due that day and not completed and capability granted,
dispatches a notification for it (so its dispatch count is positive). -/
theorem marker_previous_day_no_suppress (rs : List Reminder) (s : Store) (r : Reminder)
    (d today : String) (hr : r ∈ rs) (hdue : r.date.toDateString = today)
    (hcomp : r.completed = false) (hm : getNotified s r.id = some d) (hne : ¬d = today) :
    (∃ t, Event.dispatch r.id t ∈ (checkReminders rs today true s).2) ∧
    1 ≤ countDispatch (checkReminders rs today true s).2 r.id := by
  have hinv : getNotified s r.id = some today → ∃ t, Event.dispatch r.id t ∈ ([] : List Event) := by
    intro hmm
    exact absurd (Option.some.inj (hm.symm.trans hmm)) hne
  have hex := foldl_dispatch_exists today rs s [] r hr hdue hcomp hinv
  refine ⟨hex, ?_⟩
  obtain ⟨t, ht⟩ := hex
  have hpos : 0 < countDispatch (checkReminders rs today true s).2 r.id :=
    List.countP_pos_iff.mpr ⟨Event.dispatch r.id t, ht, by simp⟩
  omega

/-- C5 instantiated: with a marker from a different day string in the
store, a tick on the fixture day dispatches for the fixture reminder. -/
theorem marker_previous_day_no_suppress_witness :
    (∃ t, Event.dispatch remW.id t
      ∈ (checkReminders [remW] dayW.toDateString true
          (setNotified {} "a" "other-day")).2) ∧
    1 ≤ countDispatch (checkReminders [remW] dayW.toDateString true
          (setNotified {} "a" "other-day")).2 remW.id :=
  marker_previous_day_no_suppress [remW] (setNotified {} "a" "other-day") remW
    "other-day" dayW.toDateString (List.mem_singleton.mpr rfl) rfl rfl rfl (by decide)

/-- Appending a dispatch-then-marker-write block preserves the
marker-after-dispatch ordering of a trace. -/
theorem markerOrdered_append_block (today : String) (evs : List Event) (id t : String)
    (h : MarkerOrdered today evs) :
    MarkerOrdered today
      (evs ++ [Event.dispatch id t, Event.writeMarker id today]) := by
  intro i id2 day2 hi
  by_cases hlt : i < evs.length
  · rw [List.getElem?_append_left hlt] at hi
    obtain ⟨hday, j, hj, t2, hjget⟩ := h i id2 day2 hi
    exact ⟨hday, j, hj, t2, by
      rw [List.getElem?_append_left (lt_trans hj hlt)]
      exact hjget⟩
  · have hge : evs.length ≤ i := Nat.le_of_not_lt hlt
    rw [List.getElem?_append_right hge] at hi
    rcases hk : i - evs.length with _ | k
    · rw [hk] at hi
      simp at hi
    · rcases k with _ | k2
      · rw [hk] at hi
        simp only [List.getElem?_cons_succ, List.getElem?_cons_zero, Option.some.injEq] at hi
        obtain ⟨hid, hday⟩ := Event.writeMarker.inj hi.symm
        refine ⟨hday, evs.length, by omega, t, ?_⟩
        rw [List.getElem?_append_right (le_refl evs.length), Nat.sub_self, hid]
        rfl
      · rw [hk] at hi
        simp at hi

/-- A tick preserves the marker-after-dispatch ordering of the trace. -/
theorem foldl_markerOrdered (today : String) (granted : Bool) (rs : List Reminder) :
    ∀ (s : Store) (evs : List Event), MarkerOrdered today evs →
      MarkerOrdered today (rs.foldl (checkStep today granted) (s, evs)).2 := by
  induction rs with
  | nil => intro s evs h; exact h
  | cons r rest ih =>
    intro s evs h
    rw [List.foldl_cons]
    rcases checkStep_cases today granted s evs r with hc | ⟨hc, _, _, _, _⟩
    · rw [hc]
      exact ih s evs h
    · rw [hc]
      exact ih _ _ (markerOrdered_append_block today evs r.id _ h)

/-- Every marker write in a tick's trace that is not already in the
starting trace comes from some reminder of the registry that was due
today, not completed, and processed with capability granted, and names
today's day string. -/
theorem foldl_writeMarker_src (today : String) (granted : Bool) (rs : List Reminder) :
    ∀ (s : Store) (evs : List Event) (id day : String),
      Event.writeMarker id day ∈ (rs.foldl (checkStep today granted) (s, evs)).2 →
      Event.writeMarker id day ∈ evs ∨
        (granted = true ∧ day = today ∧
          ∃ r, r ∈ rs ∧ r.id = id ∧ r.date.toDateString = today ∧
            r.completed = false) := by
  induction rs with
  | nil => intro s evs id day h; exact Or.inl h
  | cons r0 rest ih =>
    intro s evs id day h
    rw [List.foldl_cons] at h
    rcases checkStep_cases today granted s evs r0 with hc | ⟨hc, hg, hdue0, hcomp0, _⟩
    · rw [hc] at h
      rcases ih s evs id day h with hin | ⟨hg, hday, r, hrmem, hrest⟩
      · exact Or.inl hin
      · exact Or.inr ⟨hg, hday, r, List.mem_cons_of_mem r0 hrmem, hrest⟩
    · rw [hc] at h
      rcases ih _ _ id day h with hin | ⟨hg2, hday, r, hrmem, hrest⟩
      · rcases List.mem_append.mp hin with hin2 | hblock
        · exact Or.inl hin2
        · simp only [List.mem_cons, List.not_mem_nil, or_false] at hblock
          rcases hblock with hbad | hw
          · exact absurd hbad (by simp)
          · obtain ⟨hid, hday⟩ := Event.writeMarker.inj hw
            exact Or.inr ⟨hg, hday, r0, List.mem_cons_self r0 rest, hid.symm, hdue0, hcomp0⟩
      · exact Or.inr ⟨hg2, hday, r, List.mem_cons_of_mem r0 hrmem, hrest⟩

/-- Across a tick, each reminder id's marker is either untouched or holds
today's day string with a dispatch for that id in the tick's trace. -/
theorem foldl_marker_tracked (today : String) (granted : Bool) (rs : List Reminder) :
    ∀ (s : Store) (evs : List Event) (id : String),
      getNotified (rs.foldl (checkStep today granted) (s, evs)).1 id = getNotified s id ∨
      (getNotified (rs.foldl (checkStep today granted) (s, evs)).1 id = some today ∧
        ∃ t, Event.dispatch id t ∈ (rs.foldl (checkStep today granted) (s, evs)).2) := by
  induction rs with
  | nil => intro s evs id; exact Or.inl rfl
  | cons r0 rest ih =>
    intro s evs id
    rw [List.foldl_cons]
    rcases checkStep_cases today granted s evs r0 with hc | ⟨hc, _, _, _, _⟩
    · rw [hc]
      exact ih s evs id
    · rw [hc]
      by_cases hid : r0.id = id
      · right
        refine ⟨?_, ?_⟩
        · apply foldl_preserves_marker
          rw [← hid]
          exact getNotified_setNotified_self s r0.id today
        · refine ⟨"FloraGuard: " ++ r0.title, ?_⟩
          apply foldl_checkStep_mem
          rw [← hid]
          exact List.mem_append_right _ (by simp)
      · have hsame : getNotified (setNotified s r0.id today) id = getNotified s id :=
          getNotified_setNotified_ne s r0.id id today hid
        rcases ih (setNotified s r0.id today) _ id with h1 | h2
        · left
          rw [h1, hsame]
        · right
          exact h2

/-- C3: in any tick from any store, (a) every marker write in the trace
names today's day and is strictly preceded in the trace by a notification
dispatch for the same reminder id, (b) every marker write comes from a
registry reminder that was due today and not completed, with capability
granted, and (c) any reminder id whose stored marker changed over the
tick now holds today's day and had a dispatch attempted in this tick —
so no tick ever writes a marker for a reminder it did not attempt to
dispatch. -/
theorem marker_only_after_dispatch (rs : List Reminder) (today : String) (granted : Bool)
    (s : Store) :
    MarkerOrdered today (checkReminders rs today granted s).2 ∧
    (∀ id day, Event.writeMarker id day ∈ (checkReminders rs today granted s).2 →
      granted = true ∧ day = today ∧
      ∃ r, r ∈ rs ∧ r.id = id ∧ r.date.toDateString = today ∧ r.completed = false) ∧
    (∀ id, ¬getNotified (checkReminders rs today granted s).1 id = getNotified s id →
      getNotified (checkReminders rs today granted s).1 id = some today ∧
      ∃ t, Event.dispatch id t ∈ (checkReminders rs today granted s).2) := by
  refine ⟨?_, ?_, ?_⟩
  · apply foldl_markerOrdered
    intro i id day h
    simp at h
  · intro id day h
    rcases foldl_writeMarker_src today granted rs s [] id day h with hin | hout
    · simp at hin
    · exact hout
  · intro id hne
    rcases foldl_marker_tracked today granted rs s [] id with h1 | h2
    · exact absurd h1 hne
    · exact h2

/-- C3 instantiated: on the concrete one-reminder tick, the marker write
at trace position 1 names the tick day and is preceded by a dispatch, the
marker write is justified by the fixture reminder, and the changed marker
for id "a" carries the day with a dispatch in the trace. -/
theorem marker_only_after_dispatch_witness :
    (dayW.toDateString = dayW.toDateString ∧
      ∃ j : Nat, j < 1 ∧ ∃ t,
        ((checkReminders [remW] dayW.toDateString true {}).2)[j]?
          = some (Event.dispatch "a" t)) ∧
    (true = true ∧ dayW.toDateString = dayW.toDateString ∧
      ∃ r, r ∈ [remW] ∧ r.id = "a" ∧ r.date.toDateString = dayW.toDateString ∧
        r.completed = false) ∧
    (getNotified (checkReminders [remW] dayW.toDateString true {}).1 "a"
        = some dayW.toDateString ∧
      ∃ t, Event.dispatch "a" t ∈ (checkReminders [remW] dayW.toDateString true {}).2) :=
  ⟨(marker_only_after_dispatch [remW] dayW.toDateString true {}).1 1 "a"
      dayW.toDateString (by decide),
    (marker_only_after_dispatch [remW] dayW.toDateString true {}).2.1 "a"
      dayW.toDateString (by decide),
    (marker_only_after_dispatch [remW] dayW.toDateString true {}).2.2 "a" (by decide)⟩

end FloraGuard
